import Mathlib

/-!
Verification of the rare-drop assignment synchronization engine of `srodbpy`
(`src/main.py`): the catalog loader, level index, assignment planner,
probability model, snapshot guard and batch synchronizer embedded as pure
Lean functions over explicit table states, together with theorems settling
the specification claims.
-/

namespace Srodb

/-! ## SQL LIKE pattern matching

The engine's queries use SQL `LIKE` patterns (`'%_A_RARE%'`, `'RARE_%'`,
`'MOB_%'`).  In SQL, `%` matches any run of characters and `_` matches any
single character.  `likeChars` is structurally recursive on the pattern so
that it evaluates inside the kernel. -/

def likeChars : List Char → List Char → Bool
  | [], s => s.isEmpty
  | '%' :: ps, s => s.tails.any (fun t => likeChars ps t)
  | '_' :: ps, s =>
    match s with
    | [] => false
    | _ :: t => likeChars ps t
  | p :: ps, s =>
    match s with
    | [] => false
    | c :: t => p = c && likeChars ps t

def likeMatch (pat s : String) : Bool :=
  likeChars pat.data s.data

/-- The row name carries the literal synthetic prefix `RARE_` (the notion the
spec uses for a synthetic row). -/
def hasRarePrefix (s : String) : Bool :=
  s.data.take 5 = ['R', 'A', 'R', 'E', '_']

/-! ## Region classifier (`DropRateWorker.get_region`) -/

/-- `get_region`: country 0 and 3 map to `CN`, country 1 to `EU`, any other
country `N` to `R{N}` (source `main.py` lines 291-299). -/
def get_region (country : Int) : String :=
  if country = 0 ∨ country = 3 then "CN"
  else if country = 1 then "EU"
  else "R" ++ toString country

/-! ## Catalog (the read-only reference data)

`_RefObjCommon` rows carry the fields the engine's queries touch; monsters
join `_RefObjChar` through the `Link` column for their level. -/

structure ObjCommonRow where
  id : Nat
  codeName : String
  service : Int
  typeID1 : Int
  reqLevel1 : Option Int
  country : Int
  link : Nat
deriving DecidableEq

structure ObjCharRow where
  id : Nat
  lvl : Int
deriving DecidableEq

structure Catalog where
  objCommon : List ObjCommonRow
  objChar : List ObjCharRow
deriving DecidableEq

/-- Configuration handed to `DropRateWorker` (constructor arguments,
`main.py` lines 281-289); text fields arrive already parsed. -/
structure SyncConfig where
  rareTypes : List String
  probabilities : String → ℚ
  levelDistance : Int
  countryMixture : Bool
  levelThreshold : Int
  decreasePct : ℚ

/-- Item query of step 1 (`main.py` lines 361-371): rare items of type `t`
with a non-null required level, returned as `(ID, ReqLevel1, Country)`. -/
def itemQuery (cat : Catalog) (t : String) : List (Nat × Int × Int) :=
  (cat.objCommon.filter (fun r =>
      likeMatch ("%_" ++ t ++ "_RARE%") r.codeName &&
      r.service = 1 && r.typeID1 = 3 && r.reqLevel1.isSome)).map
    (fun r => (r.id, r.reqLevel1.getD 0, r.country))

/-- Dictionary key of `items_by_type_level`: `(rare_type, level)` when
region mixture is enabled, `(rare_type, level, region)` otherwise. -/
structure GroupKey where
  rareType : String
  level : Int
  region : Option String
deriving DecidableEq

/-- Key computed for one collected item (`main.py` lines 376-381). -/
def mkKey (cfg : SyncConfig) (t : String) (lvl country : Int) : GroupKey :=
  if cfg.countryMixture then ⟨t, lvl, none⟩
  else ⟨t, lvl, some (get_region country)⟩

/-- `items_by_type_level[key].append(item_id)` with key creation on first
use, preserving Python dict insertion order (`main.py` lines 383-385). -/
def addToDict (m : List (GroupKey × List Nat)) (k : GroupKey) (v : Nat) :
    List (GroupKey × List Nat) :=
  match m with
  | [] => [(k, [v])]
  | (k₀, vs) :: rest =>
    if k = k₀ then (k₀, vs ++ [v]) :: rest else (k₀, vs) :: addToDict rest k v

/-- Collect one rare type's items into the dictionary (`main.py` lines
360-385, inner loop). -/
def collectForType (cat : Catalog) (cfg : SyncConfig) (t : String)
    (acc : List (GroupKey × List Nat)) : List (GroupKey × List Nat) :=
  (itemQuery cat t).foldl
    (fun m p => addToDict m (mkKey cfg t p.2.1 p.2.2) p.1) acc

/-- Step 1 in full: the level index over every enabled rare type. -/
def itemsByTypeLevel (cat : Catalog) (cfg : SyncConfig) :
    List (GroupKey × List Nat) :=
  cfg.rareTypes.foldl (fun acc t => collectForType cat cfg t acc) []

/-- Deterministic group name (`main.py` lines 420-425): `RARE_{t}_LVL_{lvl}`
plus `_{region}` when region-aware. -/
def groupName : GroupKey → String
  | ⟨t, lvl, none⟩ => "RARE_" ++ t ++ "_LVL_" ++ toString lvl
  | ⟨t, lvl, some r⟩ => "RARE_" ++ t ++ "_LVL_" ++ toString lvl ++ "_" ++ r

/-- One `_RefDropItemGroup` row. -/
structure GroupRow where
  service : Int
  refItemGroupID : Int
  codeName : String
  refItemID : Nat
  selectRatio : ℚ
  refMagicGroupID : Int
deriving DecidableEq

/-- Step 3 planning (`main.py` lines 416-436): one group per dictionary key,
consecutive identifiers from `gid` onward, equal select ratio `1/count`. -/
def planGroupEntries : List (GroupKey × List Nat) → Int → List GroupRow
  | [], _ => []
  | (k, ids) :: rest, gid =>
    ids.map (fun iid => ⟨1, gid, groupName k, iid, 1 / (ids.length : ℚ), 0⟩)
      ++ planGroupEntries rest (gid + 1)

/-- The `created_groups` map `{key: group_id}` in insertion order. -/
def createdGroups : List (GroupKey × List Nat) → Int → List (GroupKey × Int)
  | [], _ => []
  | (k, _) :: rest, gid => (k, gid) :: createdGroups rest (gid + 1)

/-- `SELECT MAX(RefItemGroupID) FROM _RefDropItemGroup`: `none` on an empty
table. -/
def maxGroupIdOpt (rows : List GroupRow) : Option Int :=
  rows.foldl
    (fun m r =>
      match m with
      | none => some r.refItemGroupID
      | some v => some (max v r.refItemGroupID)) none

/-- `max_group_id = cursor.fetchone()[0] or 0` (`main.py` lines 408-409). -/
def maxGroupId (rows : List GroupRow) : Int :=
  (maxGroupIdOpt rows).getD 0

/-- Region filter of the step-5 monster queries (`main.py` lines 523-584):
no filter under region mixture, else `CN` means country 0 or 3, `EU` means
country 1, and `R{N}` compares against `int(region_filter[1:])` (modelled
with `String.toInt?`, total on every region name `get_region` produces). -/
def monsterRegionOk (k : GroupKey) (country : Int) : Bool :=
  match k.region with
  | none => true
  | some rf =>
    if rf = "CN" then country = 0 || country = 3
    else if rf = "EU" then country = 1
    else country = ((rf.drop 1).toInt?.getD 0)

/-- Monster query for one group key (`main.py` lines 523-586): service
monsters whose name matches `MOB_%`, joined to `_RefObjChar` on `Link`,
level between `minL` and `maxL` inclusive, region-filtered when the key is
regional.  Returns `(ID, Lvl)` pairs. -/
def monsterQuery (cat : Catalog) (k : GroupKey) (minL maxL : Int) :
    List (Nat × Int) :=
  cat.objCommon.flatMap (fun c =>
    if likeMatch "MOB_%" c.codeName && c.typeID1 = 1 && c.service = 1 &&
        monsterRegionOk k c.country then
      (cat.objChar.filter
          (fun ch => ch.id = c.link && minL ≤ ch.lvl && ch.lvl ≤ maxL)).map
        (fun ch => (c.id, ch.lvl))
    else [])

/-- Probability model (`main.py` lines 589-600): above a positive threshold
with a positive decrease percentage, decay the base ratio by
`(1 - pct/100)` per level and floor the result at 1% of the base; otherwise
return the base ratio unchanged. -/
def adjustedDropRatio (dropRatio : ℚ) (monsterLevel : Int)
    (threshold : Int) (decreasePct : ℚ) : ℚ :=
  if 0 < threshold ∧ 0 < decreasePct ∧ threshold < monsterLevel then
    max (dropRatio * (1 - decreasePct / 100) ^ (monsterLevel - threshold).toNat)
      (dropRatio * (1 / 100))
  else dropRatio

/-- One `_RefMonster_AssignedItemRndDrop` row. -/
structure AssignRow where
  service : Int
  refMonsterID : Nat
  refItemGroupID : Int
  itemGroupCodeName : String
  overlap : Int
  dropAmountMin : Int
  dropAmountMax : Int
  dropRatio : ℚ
  param1 : Int
  param2 : Int
deriving DecidableEq

/-- Step 5 planning (`main.py` lines 504-609): for every created group, one
assignment per row of its monster query, with fixed `Overlap = 0`,
`DropAmountMin = DropAmountMax = 1` and the decayed drop ratio. -/
def planAssignments (cat : Catalog) (cfg : SyncConfig)
    (created : List (GroupKey × Int)) : List AssignRow :=
  created.flatMap (fun p =>
    (monsterQuery cat p.1 (max 0 (p.1.level - cfg.levelDistance))
        (p.1.level + cfg.levelDistance)).map
      (fun q =>
        ⟨1, q.1, p.2, groupName p.1, 0, 1, 1,
          adjustedDropRatio (cfg.probabilities p.1.rareType) q.2
            cfg.levelThreshold cfg.decreasePct, 0, 0⟩))

/-- The two live tables the sync run rewrites. -/
structure Tables where
  groups : List GroupRow
  assigns : List AssignRow
deriving DecidableEq

/-- One full sync run (`DropRateWorker.run`, steps 1-5): collect items,
bulk-delete rows matching `LIKE 'RARE_%'` from each table, allocate group
identifiers from the post-delete maximum plus one, and insert the planned
groups and assignments. -/
def syncRun (cat : Catalog) (cfg : SyncConfig) (tbl : Tables) : Tables :=
  let ibtl := itemsByTypeLevel cat cfg
  let keptGroups := tbl.groups.filter (fun r => !likeMatch "RARE_%" r.codeName)
  let seed := maxGroupId keptGroups + 1
  { groups := keptGroups ++ planGroupEntries ibtl seed,
    assigns :=
      tbl.assigns.filter (fun r => !likeMatch "RARE_%" r.itemGroupCodeName)
        ++ planAssignments cat cfg (createdGroups ibtl seed) }

/-! ## Batch synchronizer: batched inserts

The source slices `range(0, len(entries), batch_size)` and issues one
parameterised `INSERT` per slice (`main.py` lines 438-481 and 611-656). -/

/-- The batches `l[i : i + bs]` for `i in range(0, len(l), bs)`. -/
def batches (bs : Nat) (l : List α) : List (List α) :=
  (List.range ((l.length + bs - 1) / bs)).map
    (fun i => (l.drop (i * bs)).take bs)

/-- One positional SQL parameter. -/
inductive SqlParam where
  | num (q : ℚ)
  | str (s : String)
deriving DecidableEq

/-- The six parameters one group row contributes to its batch
(`main.py` lines 456-466). -/
def groupRowParams (r : GroupRow) : List SqlParam :=
  [.num r.service, .num r.refItemGroupID, .str r.codeName,
   .num r.refItemID, .num r.selectRatio, .num r.refMagicGroupID]

/-- The ten parameters one assignment row contributes to its batch
(`main.py` lines 633-647). -/
def assignRowParams (a : AssignRow) : List SqlParam :=
  [.num a.service, .num a.refMonsterID, .num a.refItemGroupID,
   .str a.itemGroupCodeName, .num a.overlap, .num a.dropAmountMin,
   .num a.dropAmountMax, .num a.dropRatio, .num a.param1, .num a.param2]

/-! ## Snapshot guard: restore (`RestoreWorker.run`) -/

/-- The state `restore` works on: presence flags for the two backup
relations, their contents, and the two live relations. -/
structure BackupDB where
  groupBackupPresent : Bool
  assignBackupPresent : Bool
  groupBackupRows : List GroupRow
  assignBackupRows : List AssignRow
  liveGroups : List GroupRow
  liveAssigns : List AssignRow
deriving DecidableEq

inductive RestoreError where
  | noBackup
  | emptyBackup
deriving DecidableEq

/-- `RestoreWorker.run` (`main.py` lines 187-268): missing group backup or
missing assignment backup abort with `NoBackupError`; both backups present
but both empty abort with `EmptyBackupError`; every check precedes the
destructive statements, so a failing run returns the state untouched.
Otherwise both live tables are cleared, the full backup contents are
reinserted, and the restored row counts are reported. -/
def restoreRun (db : BackupDB) : BackupDB × Except RestoreError (Nat × Nat) :=
  if db.groupBackupPresent = false then (db, .error .noBackup)
  else if db.assignBackupPresent = false then (db, .error .noBackup)
  else if db.groupBackupRows.length = 0 ∧ db.assignBackupRows.length = 0 then
    (db, .error .emptyBackup)
  else
    ({ db with
        liveGroups := db.groupBackupRows,
        liveAssigns := db.assignBackupRows },
      .ok (db.groupBackupRows.length, db.assignBackupRows.length))

/-! ## Run triggering (`RareDropTool.apply_drop_rates`)

The caller-side guard before a worker starts (`main.py` lines 1616-1713).
Text-field parsing is elided: inputs arrive as already-parsed numbers, as
in the worker's constructor.  The function receives the current
worker-active flag as an argument to make its (non-)use explicit: the
source consults no such flag before starting a new worker. -/

structure ApplyConfig where
  starEnabled : Bool
  starProb : ℚ
  moonEnabled : Bool
  moonProb : ℚ
  sunEnabled : Bool
  sunProb : ℚ
  levelDistance : Int
  levelThreshold : Int
  decreasePct : ℚ
deriving DecidableEq

inductive ApplyOutcome where
  | invalidInput
  | noTypesSelected
  | declined
  | workerStarted
deriving DecidableEq

/-- Decision logic of `apply_drop_rates`: validate each enabled
probability, require at least one type, validate distance, threshold and
decrease, ask for confirmation, then start a `DropRateWorker`.  No branch
consults `workerActive` and no busy rejection exists in the source. -/
def applyDropRates (_workerActive : Bool) (cfg : ApplyConfig)
    (userConfirms : Bool) : ApplyOutcome :=
  if cfg.starEnabled ∧ (cfg.starProb ≤ 0 ∨ 1 < cfg.starProb) then .invalidInput
  else if cfg.moonEnabled ∧ (cfg.moonProb ≤ 0 ∨ 1 < cfg.moonProb) then
    .invalidInput
  else if cfg.sunEnabled ∧ (cfg.sunProb ≤ 0 ∨ 1 < cfg.sunProb) then
    .invalidInput
  else if ¬cfg.starEnabled ∧ ¬cfg.moonEnabled ∧ ¬cfg.sunEnabled then
    .noTypesSelected
  else if cfg.levelDistance < 0 then .invalidInput
  else if cfg.levelThreshold < 0 then .invalidInput
  else if cfg.decreasePct < 0 ∨ 100 < cfg.decreasePct then .invalidInput
  else if ¬userConfirms then .declined
  else .workerStarted

/-! ## Specification-side candidate sets

`candidatesForKey` restates, directly from the queries, which item
identifiers belong to a given dictionary key: it is compared against the
fold that builds `items_by_type_level`. -/

/-- All item identifiers of the catalog whose collected key is `k`, in the
scan order of the collection loop. -/
def candidatesForKey (cat : Catalog) (cfg : SyncConfig) (k : GroupKey) :
    List Nat :=
  cfg.rareTypes.flatMap (fun t =>
    (itemQuery cat t).filterMap
      (fun p => if mkKey cfg t p.2.1 p.2.2 = k then some p.1 else none))

/-- Association-list lookup in `items_by_type_level` (Python `dict[key]`,
empty when the key is absent). -/
def dictGet : List (GroupKey × List Nat) → GroupKey → List Nat
  | [], _ => []
  | (k₀, vs) :: rest, k => if k = k₀ then vs else dictGet rest k

/-- The invariant the collection loop maintains: keys are unique (it is a
Python dict) and every value list is non-empty (a key is only created when
an item is appended to it). -/
def DictWF (m : List (GroupKey × List Nat)) : Prop :=
  (m.map Prod.fst).Nodup ∧ ∀ p ∈ m, p.2 ≠ []

/-! ## Concrete instances used by witnesses and counterexamples -/

/-- Configuration: only type `A` enabled with base rate 1%, level distance
10, region mixture on, decay disabled. -/
def cexCfg : SyncConfig :=
  { rareTypes := ["A"], probabilities := fun _ => 1 / 100,
    levelDistance := 10, countryMixture := true,
    levelThreshold := 0, decreasePct := 0 }

/-- Catalog with two `A`-rare items at levels 45 and 55 and one monster of
level 50: both item levels fall inside the monster's candidate window. -/
def cexCat : Catalog :=
  { objCommon :=
      [⟨1, "IT_A_RARE1", 1, 3, some 45, 0, 0⟩,
       ⟨2, "IT_A_RARE2", 1, 3, some 55, 0, 0⟩,
       ⟨10, "MOB_X", 1, 1, none, 0, 77⟩],
    objChar := [⟨77, 50⟩] }

/-- A group row whose name does not start with `RARE` at all. -/
def plainGroupRow : GroupRow := ⟨1, 7, "ITEM_POOL", 3, 1, 0⟩

/-- A group row whose name matches the SQL pattern `RARE_%` without carrying
the literal `RARE_` prefix (the `_` wildcard matches `X`). -/
def wildcardGroupRow : GroupRow := ⟨1, 7, "RAREXY", 3, 1, 0⟩

def sampleGroupRow : GroupRow := ⟨1, 1, "RARE_A_LVL_45", 1, 1, 0⟩

def sampleAssignRow : AssignRow := ⟨1, 10, 1, "RARE_A_LVL_45", 0, 1, 1, 1 / 100, 0, 0⟩

/-- Backup state with the group backup relation absent. -/
def dbNoBackup : BackupDB := ⟨false, true, [], [], [], []⟩

/-- Backup state with both backup relations present and non-empty. -/
def dbOkBackup : BackupDB :=
  ⟨true, true, [sampleGroupRow], [sampleAssignRow], [], []⟩

/-- Backup state with an empty group backup but a non-empty assignment
backup. -/
def dbOneSidedBackup : BackupDB :=
  ⟨true, true, [], [sampleAssignRow], [plainGroupRow], []⟩

/-- Backup state where both backup relations are present but empty. -/
def dbEmptyBackup : BackupDB :=
  ⟨true, true, [], [], [plainGroupRow], []⟩

/-- A valid apply configuration: only Star enabled at 1%. -/
def validApplyCfg : ApplyConfig := ⟨true, 1 / 100, false, 0, false, 0, 10, 0, 0⟩

/-! ## Helper lemmas -/

theorem likeChars_nil (t : List Char) : likeChars [] t = t.isEmpty := by
  simp [likeChars]

theorem tails_any_empty (cs : List Char) :
    cs.tails.any (fun t => likeChars [] t) = true := by
  simp only [List.any_eq_true]
  exact ⟨[], (List.mem_tails [] cs).2 List.nil_suffix, rfl⟩

/-- Any string of the form `RARE` followed by at least one character matches
the SQL pattern `RARE_%` (the fifth character is consumed by the `_`
wildcard). -/
theorem likeRare_of_shape (c : Char) (cs : List Char) :
    likeChars "RARE_%".data ('R' :: 'A' :: 'R' :: 'E' :: c :: cs) = true :=
  tails_any_empty cs

theorem rare_data : "RARE_".data = ['R', 'A', 'R', 'E', '_'] := rfl

/-- Conversely, a match of `RARE_%` forces the shape `RARE` plus at least
one character. -/
theorem likeRare_shape :
    ∀ l : List Char, likeChars "RARE_%".data l = true →
      ∃ c cs, l = 'R' :: 'A' :: 'R' :: 'E' :: c :: cs := by
  intro l h
  rcases l with _ | ⟨c1, _ | ⟨c2, _ | ⟨c3, _ | ⟨c4, _ | ⟨c5, cs⟩⟩⟩⟩⟩
  · exact absurd h (by decide)
  · rw [show likeChars "RARE_%".data [c1] = (('R' = c1 : Bool) && false) from
      rfl] at h
    simp at h
  · rw [show likeChars "RARE_%".data [c1, c2] =
      (('R' = c1 : Bool) && (('A' = c2 : Bool) && false)) from rfl] at h
    simp at h
  · rw [show likeChars "RARE_%".data [c1, c2, c3] =
      (('R' = c1 : Bool) && (('A' = c2 : Bool) &&
        (('R' = c3 : Bool) && false))) from rfl] at h
    simp at h
  · rw [show likeChars "RARE_%".data [c1, c2, c3, c4] =
      (('R' = c1 : Bool) && (('A' = c2 : Bool) && (('R' = c3 : Bool) &&
        (('E' = c4 : Bool) && false)))) from rfl] at h
    simp at h
  · rw [show likeChars "RARE_%".data (c1 :: c2 :: c3 :: c4 :: c5 :: cs) =
      (('R' = c1 : Bool) && (('A' = c2 : Bool) && (('R' = c3 : Bool) &&
        (('E' = c4 : Bool) &&
          cs.tails.any (fun t => likeChars [] t))))) from rfl] at h
    simp only [Bool.and_eq_true, decide_eq_true_eq] at h
    obtain ⟨h1, h2, h3, h4, -⟩ := h
    exact ⟨c5, cs, by rw [← h1, ← h2, ← h3, ← h4]⟩

/-- A string carrying the literal `RARE_` prefix matches `RARE_%`. -/
theorem likeRare_append (s : String) :
    likeMatch "RARE_%" ("RARE_" ++ s) = true := by
  unfold likeMatch
  rw [String.data_append, rare_data]
  exact likeRare_of_shape '_' s.data

/-- Every name the planner generates matches the delete pattern `RARE_%`. -/
theorem groupName_like (k : GroupKey) :
    likeMatch "RARE_%" (groupName k) = true := by
  obtain ⟨t, lvl, _ | r⟩ := k
  · have hdata : (groupName ⟨t, lvl, none⟩).data =
        'R' :: 'A' :: 'R' :: 'E' :: '_' ::
          (t.data ++ ("_LVL_" ++ toString lvl).data) := by
      simp [groupName, String.data_append, rare_data]
    unfold likeMatch
    rw [hdata]
    exact likeRare_of_shape '_' _
  · have hdata : (groupName ⟨t, lvl, some r⟩).data =
        'R' :: 'A' :: 'R' :: 'E' :: '_' ::
          (t.data ++ ("_LVL_" ++ toString lvl ++ "_" ++ r).data) := by
      simp [groupName, String.data_append, rare_data]
    unfold likeMatch
    rw [hdata]
    exact likeRare_of_shape '_' _

/-- Every row the group planner emits has a planner-generated name, so it
matches the bulk-delete pattern. -/
theorem planGroupEntries_like (m : List (GroupKey × List Nat)) (s : Int) :
    ∀ r ∈ planGroupEntries m s, likeMatch "RARE_%" r.codeName = true := by
  induction m generalizing s with
  | nil => intro r hr; cases hr
  | cons p rest ih =>
    obtain ⟨k, ids⟩ := p
    intro r hr
    rw [show planGroupEntries ((k, ids) :: rest) s =
      ids.map (fun iid => ⟨1, s, groupName k, iid, 1 / (ids.length : ℚ), 0⟩)
        ++ planGroupEntries rest (s + 1) from rfl, List.mem_append] at hr
    rcases hr with hr | hr
    · obtain ⟨iid, -, rfl⟩ := List.mem_map.mp hr
      exact groupName_like k
    · exact ih (s + 1) r hr

/-- Every assignment row the planner emits carries a planner-generated
group name, so it matches the bulk-delete pattern. -/
theorem planAssignments_like (cat : Catalog) (cfg : SyncConfig)
    (created : List (GroupKey × Int)) :
    ∀ a ∈ planAssignments cat cfg created,
      likeMatch "RARE_%" a.itemGroupCodeName = true := by
  intro a ha
  unfold planAssignments at ha
  obtain ⟨p, -, hmem⟩ := List.mem_flatMap.mp ha
  obtain ⟨q, -, rfl⟩ := List.mem_map.mp hmem
  exact groupName_like p.1

/-- Group identifiers allocated by the planner never fall below the seed. -/
theorem planGroupEntries_gid_ge (m : List (GroupKey × List Nat)) (s : Int) :
    ∀ r ∈ planGroupEntries m s, s ≤ r.refItemGroupID := by
  induction m generalizing s with
  | nil => intro r hr; cases hr
  | cons p rest ih =>
    obtain ⟨k, ids⟩ := p
    intro r hr
    rw [show planGroupEntries ((k, ids) :: rest) s =
      ids.map (fun iid => ⟨1, s, groupName k, iid, 1 / (ids.length : ℚ), 0⟩)
        ++ planGroupEntries rest (s + 1) from rfl, List.mem_append] at hr
    rcases hr with hr | hr
    · obtain ⟨iid, -, rfl⟩ := List.mem_map.mp hr
      exact le_refl s
    · exact le_trans (by omega) (ih (s + 1) r hr)

/-- Lookup after one dictionary insertion: the inserted key's list grows by
the new item at the end, every other key is untouched. -/
theorem dictGet_addToDict (m : List (GroupKey × List Nat)) (k₀ k : GroupKey)
    (v : Nat) :
    dictGet (addToDict m k₀ v) k =
      if k = k₀ then dictGet m k ++ [v] else dictGet m k := by
  induction m with
  | nil => by_cases h : k = k₀ <;> simp [addToDict, dictGet, h]
  | cons p rest ih =>
    obtain ⟨k₁, vs⟩ := p
    by_cases h0 : k₀ = k₁
    · subst h0
      by_cases h1 : k = k₀ <;> simp [addToDict, dictGet, h1]
    · rw [show addToDict ((k₁, vs) :: rest) k₀ v =
        (k₁, vs) :: addToDict rest k₀ v from by simp [addToDict, h0]]
      by_cases h1 : k = k₁
      · subst h1
        simp [dictGet, show ¬(k = k₀) from fun h => h0 h.symm]
      · simp [dictGet, h1, ih]

/-- The key list after one insertion: unchanged when the key was present,
extended at the end otherwise. -/
theorem keys_addToDict (m : List (GroupKey × List Nat)) (k : GroupKey)
    (v : Nat) :
    (addToDict m k v).map Prod.fst =
      if k ∈ m.map Prod.fst then m.map Prod.fst
      else m.map Prod.fst ++ [k] := by
  induction m with
  | nil => simp [addToDict]
  | cons p rest ih =>
    obtain ⟨k₁, vs⟩ := p
    by_cases h0 : k = k₁
    · subst h0
      simp [addToDict]
    · rw [show addToDict ((k₁, vs) :: rest) k v =
        (k₁, vs) :: addToDict rest k v from by simp [addToDict, h0]]
      by_cases h1 : k ∈ rest.map Prod.fst <;>
        simp [ih, h0, h1, List.mem_cons]

/-- Values stay non-empty through one insertion. -/
theorem vals_addToDict (m : List (GroupKey × List Nat)) (k : GroupKey)
    (v : Nat) (h : ∀ p ∈ m, p.2 ≠ []) :
    ∀ p ∈ addToDict m k v, p.2 ≠ [] := by
  induction m with
  | nil =>
    intro p hp
    rw [show addToDict [] k v = [(k, [v])] from rfl,
      List.mem_singleton] at hp
    subst hp
    simp
  | cons q rest ih =>
    obtain ⟨k₁, vs⟩ := q
    intro p hp
    by_cases h0 : k = k₁
    · rw [show addToDict ((k₁, vs) :: rest) k v =
        (k₁, vs ++ [v]) :: rest from by simp [addToDict, h0],
        List.mem_cons] at hp
      rcases hp with hp | hp
      · subst hp; simp
      · exact h p (List.mem_cons_of_mem _ hp)
    · rw [show addToDict ((k₁, vs) :: rest) k v =
        (k₁, vs) :: addToDict rest k v from by simp [addToDict, h0],
        List.mem_cons] at hp
      rcases hp with hp | hp
      · subst hp
        exact h _ (List.mem_cons_self _ _)
      · exact ih (fun q hq => h q (List.mem_cons_of_mem _ hq)) p hp

/-- One insertion preserves the dictionary invariant. -/
theorem DictWF_addToDict (m : List (GroupKey × List Nat)) (k : GroupKey)
    (v : Nat) (h : DictWF m) : DictWF (addToDict m k v) := by
  obtain ⟨hnd, hvals⟩ := h
  refine ⟨?_, vals_addToDict m k v hvals⟩
  rw [keys_addToDict]
  by_cases hmem : k ∈ m.map Prod.fst
  · rw [if_pos hmem]; exact hnd
  · rw [if_neg hmem]
    exact List.Nodup.append hnd (List.nodup_singleton k)
      (fun a ha hak => hmem (List.mem_singleton.mp hak ▸ ha))

/-- Folding a batch of items into the dictionary appends, at each key,
exactly the identifiers of the items scanned into that key, in scan
order. -/
theorem dictGet_foldl (items : List (Nat × Int × Int))
    (kf : Nat × Int × Int → GroupKey) (acc : List (GroupKey × List Nat))
    (k : GroupKey) :
    dictGet (items.foldl (fun m p => addToDict m (kf p) p.1) acc) k =
      dictGet acc k ++
        items.filterMap (fun p => if kf p = k then some p.1 else none) := by
  induction items generalizing acc with
  | nil => simp
  | cons p rest ih =>
    rw [List.foldl_cons, ih, dictGet_addToDict, List.filterMap_cons]
    by_cases h : kf p = k
    · rw [if_pos h, if_pos h.symm, List.append_assoc, List.singleton_append]
    · rw [if_neg h, if_neg (fun hk => h hk.symm)]

/-- The dictionary invariant survives folding a batch of items. -/
theorem DictWF_foldl (items : List (Nat × Int × Int))
    (kf : Nat × Int × Int → GroupKey) (acc : List (GroupKey × List Nat))
    (h : DictWF acc) :
    DictWF (items.foldl (fun m p => addToDict m (kf p) p.1) acc) := by
  induction items generalizing acc with
  | nil => exact h
  | cons p rest ih =>
    rw [List.foldl_cons]
    exact ih _ (DictWF_addToDict _ _ _ h)

/-- Lookup in the full level index equals the directly filtered candidate
set of the key. -/
theorem dictGet_itemsByTypeLevel (cat : Catalog) (cfg : SyncConfig)
    (k : GroupKey) :
    dictGet (itemsByTypeLevel cat cfg) k = candidatesForKey cat cfg k := by
  unfold itemsByTypeLevel candidatesForKey
  suffices h : ∀ (ts : List String) (acc : List (GroupKey × List Nat)),
      dictGet (ts.foldl (fun acc t => collectForType cat cfg t acc) acc) k =
        dictGet acc k ++ ts.flatMap (fun t =>
          (itemQuery cat t).filterMap
            (fun p => if mkKey cfg t p.2.1 p.2.2 = k then some p.1 else none)) by
    rw [h cfg.rareTypes []]
    rfl
  intro ts
  induction ts with
  | nil => intro acc; simp
  | cons t rest ih =>
    intro acc
    rw [List.foldl_cons, ih, List.flatMap_cons, ← List.append_assoc]
    congr 1
    exact dictGet_foldl _ _ _ k

/-- The full level index satisfies the dictionary invariant. -/
theorem DictWF_itemsByTypeLevel (cat : Catalog) (cfg : SyncConfig) :
    DictWF (itemsByTypeLevel cat cfg) := by
  unfold itemsByTypeLevel
  suffices h : ∀ (ts : List String) (acc : List (GroupKey × List Nat)),
      DictWF acc →
        DictWF (ts.foldl (fun acc t => collectForType cat cfg t acc) acc) by
    exact h cfg.rareTypes [] ⟨List.nodup_nil, fun p hp => absurd hp (List.not_mem_nil p)⟩
  intro ts
  induction ts with
  | nil => intro acc h; exact h
  | cons t rest ih =>
    intro acc h
    rw [List.foldl_cons]
    exact ih _ (DictWF_foldl _ _ _ h)

/-- In a list with unique keys, counting entries at one key yields one when
the key occurs and zero otherwise. -/
theorem countP_keys (m : List (GroupKey × List Nat)) (k : GroupKey)
    (hnd : (m.map Prod.fst).Nodup) :
    m.countP (fun p => p.1 = k) = if k ∈ m.map Prod.fst then 1 else 0 := by
  induction m with
  | nil => simp
  | cons p rest ih =>
    rw [List.map_cons, List.nodup_cons] at hnd
    obtain ⟨hn, hnd'⟩ := hnd
    rw [List.countP_cons, ih hnd', List.map_cons]
    simp only [List.mem_cons]
    by_cases h : p.1 = k
    · subst h
      rw [if_neg hn]
      simp
    · have hk1 : ¬(k = p.1) := fun hk => h hk.symm
      rw [show (if decide (p.1 = k) = true then (1 : Nat) else 0) = 0 from by
        simp [h], Nat.add_zero]
      by_cases hk : k ∈ rest.map Prod.fst
      · rw [if_pos hk, if_pos (Or.inr hk)]
      · rw [if_neg hk, if_neg (by rintro (h1 | h2); exacts [hk1 h1, hk h2])]

/-- In a well-formed dictionary, a key occurs iff its lookup is
non-empty. -/
theorem mem_keys_iff_dictGet (m : List (GroupKey × List Nat))
    (hw : DictWF m) (k : GroupKey) :
    k ∈ m.map Prod.fst ↔ dictGet m k ≠ [] := by
  obtain ⟨-, hvals⟩ := hw
  induction m with
  | nil => simp [dictGet]
  | cons p rest ih =>
    obtain ⟨k₁, vs⟩ := p
    rw [List.map_cons, List.mem_cons]
    by_cases h : k = k₁
    · subst h
      rw [show dictGet ((k, vs) :: rest) k = vs from by simp [dictGet]]
      have hv : vs ≠ [] := hvals (k, vs) (List.mem_cons_self _ _)
      simp [hv]
    · rw [show dictGet ((k₁, vs) :: rest) k = dictGet rest k from by
        simp [dictGet, h]]
      rw [ih (fun q hq => hvals q (List.mem_cons_of_mem _ hq))]
      simp [h]

/-- `created_groups` pairs each dictionary key with one identifier: the key
multiset is unchanged. -/
theorem createdGroups_countP (m : List (GroupKey × List Nat)) (s : Int)
    (k : GroupKey) :
    (createdGroups m s).countP (fun p => p.1 = k) =
      m.countP (fun p => p.1 = k) := by
  induction m generalizing s with
  | nil => rfl
  | cons p rest ih =>
    obtain ⟨k₁, ids⟩ := p
    rw [show createdGroups ((k₁, ids) :: rest) s =
      (k₁, s) :: createdGroups rest (s + 1) from rfl,
      List.countP_cons, List.countP_cons, ih (s + 1)]

/-- Assignment counting distributes over the per-group monster queries: the
number of assignment rows naming monster `m` equals the summed number of
times `m` appears in each created group's monster query. -/
theorem countP_planAssignments (cat : Catalog) (cfg : SyncConfig)
    (created : List (GroupKey × Int)) (m : Nat) :
    (planAssignments cat cfg created).countP (fun a => a.refMonsterID = m) =
      (created.map (fun p =>
        (monsterQuery cat p.1 (max 0 (p.1.level - cfg.levelDistance))
          (p.1.level + cfg.levelDistance)).countP (fun q => q.1 = m))).sum := by
  induction created with
  | nil => rfl
  | cons p rest ih =>
    unfold planAssignments at ih ⊢
    rw [List.flatMap_cons, List.countP_append, ih, List.map_cons,
      List.sum_cons, List.countP_map]
    rfl

/-- Restricting the planned group rows to one identifier yields either
nothing or exactly the member rows of one dictionary entry. -/
theorem planGroupEntries_filter (m : List (GroupKey × List Nat)) (s g : Int) :
    (planGroupEntries m s).filter (fun r => r.refItemGroupID = g) = [] ∨
    ∃ k ids, (k, ids) ∈ m ∧
      (planGroupEntries m s).filter (fun r => r.refItemGroupID = g) =
        ids.map (fun iid =>
          ⟨1, g, groupName k, iid, 1 / (ids.length : ℚ), 0⟩) := by
  induction m generalizing s with
  | nil => left; rfl
  | cons p rest ih =>
    obtain ⟨k, ids⟩ := p
    rw [show planGroupEntries ((k, ids) :: rest) s =
      ids.map (fun iid => ⟨1, s, groupName k, iid, 1 / (ids.length : ℚ), 0⟩)
        ++ planGroupEntries rest (s + 1) from rfl, List.filter_append]
    by_cases hg : g = s
    · subst hg
      have htail : (planGroupEntries rest (g + 1)).filter
          (fun r => r.refItemGroupID = g) = [] :=
        List.filter_eq_nil_iff.mpr (fun r hr => by
          have := planGroupEntries_gid_ge rest (g + 1) r hr
          simp only [decide_eq_true_eq]
          omega)
      have hhead : (ids.map (fun iid =>
          (⟨1, g, groupName k, iid, 1 / (ids.length : ℚ), 0⟩ : GroupRow))).filter
            (fun r => r.refItemGroupID = g) =
          ids.map (fun iid =>
            (⟨1, g, groupName k, iid, 1 / (ids.length : ℚ), 0⟩ : GroupRow)) :=
        List.filter_eq_self.mpr (fun r hr => by
          obtain ⟨iid, -, rfl⟩ := List.mem_map.mp hr
          simp)
      rw [htail, hhead, List.append_nil]
      right
      exact ⟨k, ids, List.mem_cons_self _ _, rfl⟩
    · have hhead : (ids.map (fun iid =>
          (⟨1, s, groupName k, iid, 1 / (ids.length : ℚ), 0⟩ : GroupRow))).filter
            (fun r => r.refItemGroupID = g) = [] :=
        List.filter_eq_nil_iff.mpr (fun r hr => by
          obtain ⟨iid, -, rfl⟩ := List.mem_map.mp hr
          simp only [decide_eq_true_eq]
          exact fun hs => hg hs.symm)
      rw [hhead, List.nil_append]
      rcases ih (s + 1) with h | ⟨k₁, ids₁, hmem, heq⟩
      · left; exact h
      · right; exact ⟨k₁, ids₁, List.mem_cons_of_mem _ hmem, heq⟩

/-! ## Claim theorems -/

/-- C2: the effective drop ratio equals the base probability when the
threshold is non-positive, the decrease percentage is non-positive, or the
monster level is at or below the threshold; otherwise it equals
`base * (1 - decreasePct/100) ^ (monsterLevel - threshold)` clamped from
below by `base * 0.01`; and with `decreasePct = 100` and a level above the
threshold it is exactly `base * 0.01`, never zero. -/
theorem C2_effective_ratio (base : ℚ) (lvl thr : Int) (d : ℚ) :
    (thr ≤ 0 ∨ d ≤ 0 ∨ lvl ≤ thr → adjustedDropRatio base lvl thr d = base) ∧
    (0 < thr → 0 < d → thr < lvl →
      adjustedDropRatio base lvl thr d =
        max (base * (1 - d / 100) ^ (lvl - thr).toNat) (base * (1 / 100))) ∧
    (0 < base → 0 < thr → thr < lvl →
      adjustedDropRatio base lvl thr 100 = base * (1 / 100) ∧
        adjustedDropRatio base lvl thr 100 ≠ 0) := by
  refine ⟨?_, ?_, ?_⟩
  · intro h
    unfold adjustedDropRatio
    rw [if_neg]
    rintro ⟨h1, h2, h3⟩
    rcases h with h | h | h
    · exact absurd h1 (not_lt.mpr h)
    · exact absurd h2 (not_lt.mpr h)
    · exact absurd h3 (not_lt.mpr h)
  · intro h1 h2 h3
    unfold adjustedDropRatio
    rw [if_pos ⟨h1, h2, h3⟩]
  · intro hb h1 h3
    have hk : (lvl - thr).toNat ≠ 0 := by omega
    have hzero : base * (1 - (100 : ℚ) / 100) ^ (lvl - thr).toNat = 0 := by
      rw [show (1 : ℚ) - 100 / 100 = 0 by norm_num, zero_pow hk, mul_zero]
    have hfloor : (0 : ℚ) < base * (1 / 100) := by positivity
    unfold adjustedDropRatio
    rw [if_pos ⟨h1, by norm_num, h3⟩, hzero, max_eq_right hfloor.le]
    exact ⟨rfl, hfloor.ne'⟩

/-- C2 witness: the spec's concrete scenarios, `base = 0.01`,
`threshold = 100`: level 105 with 10% decrease gives `0.0059049`; level 300
with 100% decrease floors at exactly `0.0001`; level 100 is unchanged. -/
theorem C2_effective_ratio_witness :
    adjustedDropRatio (1 / 100) 105 100 10 = 59049 / 10000000 ∧
    adjustedDropRatio (1 / 100) 300 100 100 = 1 / 10000 ∧
    adjustedDropRatio (1 / 100) 100 100 10 = 1 / 100 := by
  refine ⟨?_, ?_, ?_⟩
  · have h := (C2_effective_ratio (1 / 100) 105 100 10).2.1
      (by norm_num) (by norm_num) (by norm_num)
    have ht : ((105 : Int) - 100).toNat = 5 := rfl
    rw [h, ht, max_eq_left (by norm_num)]
    norm_num
  · have h := ((C2_effective_ratio (1 / 100) 300 100 100).2.2
      (by norm_num) (by norm_num) (by norm_num)).1
    rw [h]
    norm_num
  · exact (C2_effective_ratio (1 / 100) 100 100 10).1 (Or.inr (Or.inr le_rfl))

/-- C6: with decay enabled (positive threshold, decrease in `(0, 100]`) and
a positive base, the effective ratio is monotonically non-increasing in the
monster level above the threshold, constantly equal to the base at or below
the threshold, and never below `base * 0.01`. -/
theorem C6_ratio_monotone (base : ℚ) (thr : Int) (d : ℚ)
    (hb : 0 < base) (hthr : 0 < thr) (hd : 0 < d) (hd100 : d ≤ 100) :
    (∀ l₁ l₂ : Int, thr < l₁ → l₁ ≤ l₂ →
      adjustedDropRatio base l₂ thr d ≤ adjustedDropRatio base l₁ thr d) ∧
    (∀ l : Int, l ≤ thr → adjustedDropRatio base l thr d = base) ∧
    (∀ l : Int, base * (1 / 100) ≤ adjustedDropRatio base l thr d) := by
  have hx0 : (0 : ℚ) ≤ 1 - d / 100 := by linarith
  have hx1 : (1 : ℚ) - d / 100 ≤ 1 := by linarith
  refine ⟨?_, ?_, ?_⟩
  · intro l₁ l₂ h1 h12
    unfold adjustedDropRatio
    rw [if_pos ⟨hthr, hd, show thr < l₂ by omega⟩, if_pos ⟨hthr, hd, h1⟩]
    refine max_le_max ?_ le_rfl
    exact mul_le_mul_of_nonneg_left
      (pow_le_pow_of_le_one hx0 hx1 (Int.toNat_le_toNat (by omega))) hb.le
  · intro l hl
    unfold adjustedDropRatio
    rw [if_neg]
    rintro ⟨-, -, h3⟩
    omega
  · intro l
    unfold adjustedDropRatio
    split
    · exact le_max_right _ _
    · calc base * (1 / 100) ≤ base * 1 :=
            mul_le_mul_of_nonneg_left (by norm_num) hb.le
        _ = base := mul_one base

/-- C6 witness: base 1%, threshold 100, decrease 10%: level 110 drops no
more often than level 105, level 90 keeps the base rate, and level 300
stays at or above the 1%-of-base floor. -/
theorem C6_ratio_monotone_witness :
    adjustedDropRatio (1 / 100) 110 100 10 ≤
      adjustedDropRatio (1 / 100) 105 100 10 ∧
    adjustedDropRatio (1 / 100) 90 100 10 = 1 / 100 ∧
    (1 / 100 : ℚ) * (1 / 100) ≤ adjustedDropRatio (1 / 100) 300 100 10 := by
  have h := C6_ratio_monotone (1 / 100) 100 10
    (by norm_num) (by norm_num) (by norm_num) (by norm_num)
  exact ⟨h.1 105 110 (by norm_num) (by norm_num),
    h.2.1 90 (by norm_num), h.2.2 300⟩

/-- C3: restore fails with `NoBackupError` when either backup relation is
absent and with `EmptyBackupError` when both are present but empty; every
failing run leaves the state untouched (all checks precede the destructive
statements); otherwise it replaces both live relations with the full
backup contents and reports the restored row counts. -/
theorem C3_restore (db : BackupDB) :
    (db.groupBackupPresent = false ∨ db.assignBackupPresent = false →
      restoreRun db = (db, .error .noBackup)) ∧
    (db.groupBackupPresent = true → db.assignBackupPresent = true →
      db.groupBackupRows = [] → db.assignBackupRows = [] →
      restoreRun db = (db, .error .emptyBackup)) ∧
    (∀ e, (restoreRun db).2 = .error e → (restoreRun db).1 = db) ∧
    (db.groupBackupPresent = true → db.assignBackupPresent = true →
      db.groupBackupRows ≠ [] ∨ db.assignBackupRows ≠ [] →
      restoreRun db =
        ({ db with liveGroups := db.groupBackupRows,
                   liveAssigns := db.assignBackupRows },
          .ok (db.groupBackupRows.length, db.assignBackupRows.length))) := by
  refine ⟨?_, ?_, ?_, ?_⟩
  · intro h
    unfold restoreRun
    rcases h with h | h
    · rw [if_pos h]
    · by_cases hg : db.groupBackupPresent = false
      · rw [if_pos hg]
      · rw [if_neg hg, if_pos h]
  · intro hg ha hge hae
    unfold restoreRun
    rw [if_neg (by simp [hg]), if_neg (by simp [ha]),
      if_pos ⟨by simp [hge], by simp [hae]⟩]
  · intro e
    unfold restoreRun
    split
    · intro _; rfl
    · split
      · intro _; rfl
      · split
        · intro _; rfl
        · intro h; exact absurd h (by simp)
  · intro hg ha hne
    unfold restoreRun
    rw [if_neg (by simp [hg]), if_neg (by simp [ha]), if_neg]
    rintro ⟨h1, h2⟩
    rcases hne with h | h
    · exact h (List.length_eq_zero.mp h1)
    · exact h (List.length_eq_zero.mp h2)

/-- C3 witness: a missing group backup aborts with `NoBackupError`; both
backup relations present but empty abort with `EmptyBackupError`; a
well-formed backup restores both tables and reports counts `(1, 1)`. -/
theorem C3_restore_witness :
    restoreRun dbNoBackup = (dbNoBackup, .error .noBackup) ∧
    restoreRun dbEmptyBackup = (dbEmptyBackup, .error .emptyBackup) ∧
    restoreRun dbOkBackup =
      ({ dbOkBackup with liveGroups := [sampleGroupRow],
                         liveAssigns := [sampleAssignRow] }, .ok (1, 1)) := by
  refine ⟨(C3_restore dbNoBackup).1 (Or.inl rfl),
    (C3_restore dbEmptyBackup).2.1 rfl rfl rfl rfl,
    ?_⟩
  have h := (C3_restore dbOkBackup).2.2.2 rfl rfl (Or.inl (by decide))
  exact h

/-- C10: restore aborts for an empty backup only when both backup relations
have zero rows; when the group backup is empty but the assignment backup is
not, restore proceeds, replacing both live relations with the partially
empty backup contents. -/
theorem C10_one_sided_backup (db : BackupDB)
    (hg : db.groupBackupPresent = true) (ha : db.assignBackupPresent = true)
    (hge : db.groupBackupRows = []) (hane : db.assignBackupRows ≠ []) :
    restoreRun db =
      ({ db with liveGroups := [], liveAssigns := db.assignBackupRows },
        .ok (0, db.assignBackupRows.length)) := by
  unfold restoreRun
  rw [if_neg (by simp [hg]), if_neg (by simp [ha]), if_neg]
  · simp [hge]
  · rintro ⟨-, h2⟩
    exact hane (List.length_eq_zero.mp h2)

/-- C10 witness: a state with an empty group backup and a one-row
assignment backup restores to an empty live group table and one live
assignment row. -/
theorem C10_one_sided_backup_witness :
    restoreRun dbOneSidedBackup =
      ({ dbOneSidedBackup with
          liveGroups := [], liveAssigns := [sampleAssignRow] },
        .ok (0, 1)) := by
  have h := C10_one_sided_backup dbOneSidedBackup rfl rfl rfl (by decide)
  exact h

/-- C9 counterexample: with a worker already active, a valid and confirmed
apply request still starts another worker; no branch of the trigger logic
rejects it, and the source defines no `BusyError` at all. -/
theorem C9_counterexample :
    applyDropRates true validApplyCfg true = ApplyOutcome.workerStarted := by
  norm_num [applyDropRates, validApplyCfg]

/-- C9 amended: the engine performs no busy check: the outcome of an apply
request is independent of whether a worker is active, and a valid,
confirmed request always starts a worker. Serialization of runs is left
entirely to the caller's UI, which merely disables the trigger button. -/
theorem C9_no_busy_check (busy : Bool) (cfg : ApplyConfig)
    (hstar : cfg.starEnabled → 0 < cfg.starProb ∧ cfg.starProb ≤ 1)
    (hmoon : cfg.moonEnabled → 0 < cfg.moonProb ∧ cfg.moonProb ≤ 1)
    (hsun : cfg.sunEnabled → 0 < cfg.sunProb ∧ cfg.sunProb ≤ 1)
    (hone : cfg.starEnabled ∨ cfg.moonEnabled ∨ cfg.sunEnabled)
    (hdist : 0 ≤ cfg.levelDistance) (hthr : 0 ≤ cfg.levelThreshold)
    (hdec0 : 0 ≤ cfg.decreasePct) (hdec1 : cfg.decreasePct ≤ 100) :
    applyDropRates busy cfg true = ApplyOutcome.workerStarted ∧
    applyDropRates busy cfg true = applyDropRates false cfg true := by
  have h1 : ¬(cfg.starEnabled ∧ (cfg.starProb ≤ 0 ∨ 1 < cfg.starProb)) := by
    rintro ⟨he, hp⟩
    obtain ⟨ha, hb⟩ := hstar he
    rcases hp with h | h <;> linarith
  have h2 : ¬(cfg.moonEnabled ∧ (cfg.moonProb ≤ 0 ∨ 1 < cfg.moonProb)) := by
    rintro ⟨he, hp⟩
    obtain ⟨ha, hb⟩ := hmoon he
    rcases hp with h | h <;> linarith
  have h3 : ¬(cfg.sunEnabled ∧ (cfg.sunProb ≤ 0 ∨ 1 < cfg.sunProb)) := by
    rintro ⟨he, hp⟩
    obtain ⟨ha, hb⟩ := hsun he
    rcases hp with h | h <;> linarith
  have h4 : ¬(¬cfg.starEnabled ∧ ¬cfg.moonEnabled ∧ ¬cfg.sunEnabled) := by
    rintro ⟨ha, hb, hc⟩
    rcases hone with h | h | h
    · exact ha h
    · exact hb h
    · exact hc h
  have h5 : ¬(cfg.levelDistance < 0) := not_lt.mpr hdist
  have h6 : ¬(cfg.levelThreshold < 0) := not_lt.mpr hthr
  have h7 : ¬(cfg.decreasePct < 0 ∨ 100 < cfg.decreasePct) := by
    rintro (h | h) <;> linarith
  constructor
  · unfold applyDropRates
    rw [if_neg h1, if_neg h2, if_neg h3, if_neg h4, if_neg h5, if_neg h6,
      if_neg h7, if_neg (fun h => h rfl)]
  · rfl

/-- C9 amended witness: the valid Star-only configuration starts a worker
whether or not one is already active. -/
theorem C9_no_busy_check_witness :
    applyDropRates true validApplyCfg true = ApplyOutcome.workerStarted ∧
    applyDropRates true validApplyCfg true =
      applyDropRates false validApplyCfg true :=
  C9_no_busy_check true validApplyCfg
    (fun _ => by norm_num [validApplyCfg])
    (fun h => by simp [validApplyCfg] at h)
    (fun h => by simp [validApplyCfg] at h)
    (Or.inl (by simp [validApplyCfg]))
    (by norm_num [validApplyCfg]) (by norm_num [validApplyCfg])
    (by norm_num [validApplyCfg]) (by norm_num [validApplyCfg])

/-- C8: every batched insert stays under the 2100-parameter ceiling: group
batches hold at most 300 rows of 6 parameters each (at most 1800), and
assignment batches at most 200 rows of 10 parameters each (at most 2000);
the two batch sizes differ. -/
theorem C8_batch_bounds (gs : List GroupRow) (asgn : List AssignRow) :
    (∀ b ∈ batches 300 gs,
      b.length ≤ 300 ∧ (b.flatMap groupRowParams).length ≤ 1800 ∧
        (b.flatMap groupRowParams).length < 2100) ∧
    (∀ b ∈ batches 200 asgn,
      b.length ≤ 200 ∧ (b.flatMap assignRowParams).length ≤ 2000 ∧
        (b.flatMap assignRowParams).length < 2100) ∧
    (300 : Nat) ≠ 200 := by
  have hg : ∀ b : List GroupRow, (b.flatMap groupRowParams).length = 6 * b.length := by
    intro b
    induction b with
    | nil => rfl
    | cons r t ih =>
        rw [List.flatMap_cons, List.length_append, ih,
          show (groupRowParams r).length = 6 from rfl]
        simp only [List.length_cons]
        omega
  have ha : ∀ b : List AssignRow, (b.flatMap assignRowParams).length = 10 * b.length := by
    intro b
    induction b with
    | nil => rfl
    | cons r t ih =>
        rw [List.flatMap_cons, List.length_append, ih,
          show (assignRowParams r).length = 10 from rfl]
        simp only [List.length_cons]
        omega
  refine ⟨?_, ?_, by omega⟩
  · intro b hb
    simp only [batches, List.mem_map, List.mem_range] at hb
    obtain ⟨i, -, rfl⟩ := hb
    have hlen : ((gs.drop (i * 300)).take 300).length ≤ 300 := by
      simp [List.length_take]
    refine ⟨hlen, ?_, ?_⟩ <;> rw [hg] <;> omega
  · intro b hb
    simp only [batches, List.mem_map, List.mem_range] at hb
    obtain ⟨i, -, rfl⟩ := hb
    have hlen : ((asgn.drop (i * 200)).take 200).length ≤ 200 := by
      simp [List.length_take]
    refine ⟨hlen, ?_, ?_⟩ <;> rw [ha] <;> omega

/-- C8 witness: a singleton group batch and a singleton assignment batch
satisfy the bounds. -/
theorem C8_batch_bounds_witness :
    [sampleGroupRow].length ≤ 300 ∧
      ([sampleGroupRow].flatMap groupRowParams).length ≤ 1800 ∧
      ([sampleGroupRow].flatMap groupRowParams).length < 2100 :=
  (C8_batch_bounds [sampleGroupRow] [sampleAssignRow]).1 [sampleGroupRow]
    (by decide)

/-- C1 counterexample: in the concrete catalog, the candidate item set of
monster 10 (level 50, window `[40, 60]`) for category `A` is non-empty, yet
the run produces two groups and two assignments for that (monster,
category) pair — one per item level in the window — not exactly one. -/
theorem C1_counterexample :
    (itemQuery cexCat "A").filter
      (fun p => 40 ≤ p.2.1 && p.2.1 ≤ 60) ≠ [] ∧
    (syncRun cexCat cexCfg ⟨[], []⟩).assigns.countP
      (fun a => a.refMonsterID = 10) = 2 ∧
    (syncRun cexCat cexCfg ⟨[], []⟩).groups.length = 2 := by
  refine ⟨by decide, by decide, by decide⟩

/-- C1 amended: groups are keyed by (category, item level[, region]), not by
monster: each key with a non-empty candidate item set yields exactly one
created group holding exactly those candidates, and the number of
assignments naming a monster equals the summed number of times the monster
appears in the per-key monster queries — one assignment per (created group,
matching monster) pair, so a (monster, category) pair receives one
assignment per distinct matching item level, and zero when no item of the
category lies in its window. -/
theorem C1_level_key_planning (cat : Catalog) (cfg : SyncConfig) (seed : Int)
    (k : GroupKey) (m : Nat) :
    ((createdGroups (itemsByTypeLevel cat cfg) seed).countP
        (fun p => p.1 = k) =
      if candidatesForKey cat cfg k = [] then 0 else 1) ∧
    dictGet (itemsByTypeLevel cat cfg) k = candidatesForKey cat cfg k ∧
    ((planAssignments cat cfg
        (createdGroups (itemsByTypeLevel cat cfg) seed)).countP
          (fun a => a.refMonsterID = m) =
      ((createdGroups (itemsByTypeLevel cat cfg) seed).map (fun p =>
        (monsterQuery cat p.1 (max 0 (p.1.level - cfg.levelDistance))
          (p.1.level + cfg.levelDistance)).countP
            (fun q => q.1 = m))).sum) := by
  refine ⟨?_, dictGet_itemsByTypeLevel cat cfg k,
    countP_planAssignments cat cfg _ m⟩
  have hwf := DictWF_itemsByTypeLevel cat cfg
  rw [createdGroups_countP, countP_keys _ _ hwf.1]
  by_cases h : candidatesForKey cat cfg k = []
  · rw [if_pos h, if_neg]
    rw [mem_keys_iff_dictGet _ hwf k, dictGet_itemsByTypeLevel]
    simp [h]
  · rw [if_neg h, if_pos]
    rw [mem_keys_iff_dictGet _ hwf k, dictGet_itemsByTypeLevel]
    exact h

/-- C4 counterexample: `RAREXY` does not carry the literal `RARE_` prefix,
yet it matches the SQL pattern `RARE_%` (the `_` is a single-character
wildcard), so the sync's bulk delete removes it: the row disappears even
though its name does not carry the synthetic prefix. -/
theorem C4_counterexample :
    hasRarePrefix "RAREXY" = false ∧
    likeMatch "RARE_%" "RAREXY" = true ∧
    (syncRun ⟨[], []⟩ cexCfg ⟨[wildcardGroupRow], []⟩).groups = [] := by
  refine ⟨by decide, by decide, by decide⟩

/-- Re-filtering the delete predicate over a freshly written group table
keeps exactly the rows the delete kept. -/
theorem filter_keep_groups (gs : List GroupRow)
    (m : List (GroupKey × List Nat)) (s : Int) :
    ((gs.filter (fun r => !likeMatch "RARE_%" r.codeName) ++
        planGroupEntries m s).filter
      (fun r => !likeMatch "RARE_%" r.codeName)) =
    gs.filter (fun r => !likeMatch "RARE_%" r.codeName) := by
  have hnil : (planGroupEntries m s).filter
      (fun r => !likeMatch "RARE_%" r.codeName) = [] :=
    List.filter_eq_nil_iff.mpr (fun r hr => by
      simp [planGroupEntries_like m s r hr])
  rw [List.filter_append, List.filter_filter, hnil, List.append_nil]
  simp only [Bool.and_self]

/-- Re-filtering the delete predicate over a freshly written assignment
table keeps exactly the rows the delete kept. -/
theorem filter_keep_assigns (asgn : List AssignRow) (cat : Catalog)
    (cfg : SyncConfig) (created : List (GroupKey × Int)) :
    ((asgn.filter (fun a => !likeMatch "RARE_%" a.itemGroupCodeName) ++
        planAssignments cat cfg created).filter
      (fun a => !likeMatch "RARE_%" a.itemGroupCodeName)) =
    asgn.filter (fun a => !likeMatch "RARE_%" a.itemGroupCodeName) := by
  have hnil : (planAssignments cat cfg created).filter
      (fun a => !likeMatch "RARE_%" a.itemGroupCodeName) = [] :=
    List.filter_eq_nil_iff.mpr (fun a ha => by
      simp [planAssignments_like cat cfg created a ha])
  rw [List.filter_append, List.filter_filter, hnil, List.append_nil]
  simp only [Bool.and_self]

/-- `syncRun` unfolded. -/
theorem syncRun_eq (cat : Catalog) (cfg : SyncConfig) (tbl : Tables) :
    syncRun cat cfg tbl =
      { groups := tbl.groups.filter (fun r => !likeMatch "RARE_%" r.codeName)
          ++ planGroupEntries (itemsByTypeLevel cat cfg)
            (maxGroupId (tbl.groups.filter
              (fun r => !likeMatch "RARE_%" r.codeName)) + 1),
        assigns := tbl.assigns.filter
            (fun r => !likeMatch "RARE_%" r.itemGroupCodeName)
          ++ planAssignments cat cfg (createdGroups (itemsByTypeLevel cat cfg)
            (maxGroupId (tbl.groups.filter
              (fun r => !likeMatch "RARE_%" r.codeName)) + 1)) } := rfl

/-- C4 amended: a sync run's deletes remove exactly the rows matching the
SQL pattern `RARE_%` — that is, names of the form `RARE` followed by at
least one arbitrary character, which is slightly wider than the literal
`RARE_` prefix — one bulk delete per table; every row not matching the
pattern survives the run unchanged. -/
theorem C4_delete_frame (cat : Catalog) (cfg : SyncConfig) (tbl : Tables) :
    ((syncRun cat cfg tbl).groups.filter
        (fun r => !likeMatch "RARE_%" r.codeName) =
      tbl.groups.filter (fun r => !likeMatch "RARE_%" r.codeName)) ∧
    ((syncRun cat cfg tbl).assigns.filter
        (fun a => !likeMatch "RARE_%" a.itemGroupCodeName) =
      tbl.assigns.filter (fun a => !likeMatch "RARE_%" a.itemGroupCodeName)) ∧
    (∀ r ∈ tbl.groups, likeMatch "RARE_%" r.codeName = false →
      r ∈ (syncRun cat cfg tbl).groups) ∧
    (∀ a ∈ tbl.assigns, likeMatch "RARE_%" a.itemGroupCodeName = false →
      a ∈ (syncRun cat cfg tbl).assigns) ∧
    (∀ s : String, likeMatch "RARE_%" s = true ↔
      ∃ c cs, s.data = 'R' :: 'A' :: 'R' :: 'E' :: c :: cs) := by
  refine ⟨filter_keep_groups _ _ _, filter_keep_assigns _ _ _ _, ?_, ?_, ?_⟩
  · intro r hr hlike
    exact List.mem_append_left _
      (List.mem_filter.mpr ⟨hr, by simp [hlike]⟩)
  · intro a ha hlike
    exact List.mem_append_left _
      (List.mem_filter.mpr ⟨ha, by simp [hlike]⟩)
  · intro s
    constructor
    · intro h
      exact likeRare_shape s.data h
    · rintro ⟨c, cs, hdata⟩
      unfold likeMatch
      rw [hdata]
      exact likeRare_of_shape c cs

/-- C4 amended witness: the row named `ITEM_POOL` does not match the
pattern and survives a sync run. -/
theorem C4_delete_frame_witness :
    plainGroupRow ∈ (syncRun ⟨[], []⟩ cexCfg ⟨[plainGroupRow], []⟩).groups :=
  (C4_delete_frame ⟨[], []⟩ cexCfg ⟨[plainGroupRow], []⟩).2.2.1
    plainGroupRow (by decide) (by decide)

/-- C5: in every drop group the planner produces, each member row's select
ratio is one over the group's member count and the member ratios sum to
exactly 1 (exact over the rationals, hence within any floating-point
tolerance). -/
theorem C5_group_weights (cat : Catalog) (cfg : SyncConfig) (seed g : Int)
    (hne : (planGroupEntries (itemsByTypeLevel cat cfg) seed).filter
      (fun r => r.refItemGroupID = g) ≠ []) :
    (∀ e ∈ (planGroupEntries (itemsByTypeLevel cat cfg) seed).filter
        (fun r => r.refItemGroupID = g),
      e.selectRatio =
        1 / (((planGroupEntries (itemsByTypeLevel cat cfg) seed).filter
          (fun r => r.refItemGroupID = g)).length : ℚ)) ∧
    (((planGroupEntries (itemsByTypeLevel cat cfg) seed).filter
        (fun r => r.refItemGroupID = g)).map
          (fun r => r.selectRatio)).sum = 1 := by
  rcases planGroupEntries_filter (itemsByTypeLevel cat cfg) seed g with
    h | ⟨k, ids, hmem, heq⟩
  · exact absurd h hne
  · rw [heq] at hne ⊢
    have hids : ids ≠ [] := by
      intro h0
      subst h0
      simp at hne
    constructor
    · intro e he
      obtain ⟨iid, -, rfl⟩ := List.mem_map.mp he
      rw [List.length_map]
    · rw [List.map_map,
        show ((fun r : GroupRow => r.selectRatio) ∘ (fun iid =>
          (⟨1, g, groupName k, iid, 1 / (ids.length : ℚ), 0⟩ : GroupRow))) =
          Function.const Nat (1 / (ids.length : ℚ)) from rfl,
        List.map_const, List.sum_replicate, nsmul_eq_mul, mul_one_div,
        div_self]
      exact Nat.cast_ne_zero.mpr
        (fun h0 => hids (List.length_eq_zero.mp h0))

/-- C5 witness: the equal-split and unit-sum properties hold for the first
group of the concrete catalog. -/
theorem C5_group_weights_witness :
    (∀ e ∈ (planGroupEntries (itemsByTypeLevel cexCat cexCfg) 1).filter
        (fun r => r.refItemGroupID = 1),
      e.selectRatio =
        1 / (((planGroupEntries (itemsByTypeLevel cexCat cexCfg) 1).filter
          (fun r => r.refItemGroupID = 1)).length : ℚ)) ∧
    (((planGroupEntries (itemsByTypeLevel cexCat cexCfg) 1).filter
        (fun r => r.refItemGroupID = 1)).map
          (fun r => r.selectRatio)).sum = 1 :=
  C5_group_weights cexCat cexCfg 1 1 (by decide)

/-- C7: a second sync run with the same configuration against the same
catalog reproduces the first run's tables exactly — the group identifiers
included, since they are re-seeded from the same post-delete maximum — so
names, weights and ratios are all identical. -/
theorem C7_sync_idempotent (cat : Catalog) (cfg : SyncConfig) (tbl : Tables) :
    syncRun cat cfg (syncRun cat cfg tbl) = syncRun cat cfg tbl := by
  rw [syncRun_eq cat cfg (syncRun cat cfg tbl), syncRun_eq cat cfg tbl]
  dsimp only
  rw [filter_keep_groups, filter_keep_assigns]

end Srodb
